import Mathlib

/-!
Verification development for the TinyHTML compiler core: a shallow embedding
of the line-oriented recursive-descent parser (`src/parser.ts`) and of the
HTML generator (`src/generator.ts`), together with theorems settling the
specification claims about them.

Modelling conventions:
* JavaScript strings are modelled as Lean `String`/`List Char`; `s.length` in
  JS counts UTF-16 code units, modelled by `jsLength` (2 for code points
  above U+FFFF, 1 otherwise).
* Character-level scanning loops over one line are translated to functions on
  `List Char`; loops that are not structurally recursive carry an explicit
  fuel argument that the callers instantiate with `length + 1`, which is
  enough because every loop iteration consumes at least one character (resp.
  one line).
* `throw new Error(...)` is modelled with `Except String` / `Option`.
-/

/-- JS whitespace test used by `trim`/`\s` (restricted to the ASCII whitespace
that can actually occur in the parsed data: space, tab, CR, LF). -/
def isWsChar (c : Char) : Bool := c.isWhitespace

/-- Models `String.prototype.trim`. -/
def jsTrim (s : String) : String :=
  String.mk (((s.toList.dropWhile isWsChar).reverse.dropWhile isWsChar).reverse)

/-- Models `String.prototype.toLowerCase` (ASCII data). -/
def toLowerStr (s : String) : String := String.mk (s.toList.map Char.toLower)

/-- Models `String.prototype.startsWith`. -/
def startsWithStr (s pre : String) : Bool := pre.toList.isPrefixOf s.toList

/-- Models `s.substring(n)` / `s.substr(n)` (drop the first `n` characters). -/
def jsDrop (s : String) : Nat → String := fun n => String.mk (s.toList.drop n)

/-- `getIndentLevel`: the number of leading literal space characters of a line
(tabs are not counted). -/
def indentOf (l : String) : Nat := (l.toList.takeWhile (fun c => c == ' ')).length

/-- Models `String.prototype.split('\n')`. -/
def splitLinesL : List Char → List (List Char)
  | [] => [[]]
  | '\n' :: rest => [] :: splitLinesL rest
  | c :: rest =>
    match splitLinesL rest with
    | l :: ls => (c :: l) :: ls
    | [] => [[c]]

/-- The lines of a string, split on `'\n'`. -/
def splitLines (s : String) : List String := (splitLinesL s.toList).map String.mk

/-- Models `Array.prototype.join(sep)`. -/
def joinWith (sep : String) : List String → String
  | [] => ""
  | [x] => x
  | x :: y :: xs => x ++ sep ++ joinWith sep (y :: xs)

/-- The repeated quote-stripping step
`if ((c.startsWith('"') && c.endsWith('"')) || (c.startsWith("'") && c.endsWith("'"))) c = c.slice(1, -1)`. -/
def stripSymQuotes (s : String) : String :=
  let cs := s.toList
  let wrapped : Char → Bool := fun q => cs.headD ' ' == q && cs.getLastD ' ' == q
  if wrapped '"' || wrapped '\'' then String.mk ((cs.drop 1).dropLast) else s

/-- The identifier character class `/[a-zA-Z0-9_-]/`. -/
def isIdentChar (c : Char) : Bool := c.isAlpha || c.isDigit || c == '_' || c == '-'

/-- `skipWhitespace` inside `parseTagLine`: skips `/[ \t]/`. -/
def skipWs (cs : List Char) : List Char := cs.dropWhile (fun c => c == ' ' || c == '\t')

/-- An attribute value: a string, or a bare boolean-true flag. -/
inductive AttrValue where
  | str (v : String)
  | flag
deriving DecidableEq, Repr

/-- The AST node type from `src/types.ts`. -/
inductive ASTNode where
  | doctype (doctype : String)
  | tag (name : String) (classes : List String) (id : Option String)
      (attributes : List (String × AttrValue)) (children : List ASTNode)
      (selfClosing : Bool)
  | text (content : String)

/-- The record returned by `parseTagLine`. -/
structure ParsedTagLine where
  name : String
  classes : List String
  id : Option String
  attributes : List (String × AttrValue)
  content : Option String
deriving DecidableEq, Repr

/-- The local `readIdentifier` closure of `parseTagLine` (no length limit). -/
def readIdent (cs : List Char) : String × List Char :=
  let p := cs.span isIdentChar
  (String.mk p.1, p.2)

/-- The class loop of `parseTagLine`: `while (peek() === '.') { advance(); classes.push(readIdentifier()); }`. -/
def readClasses : Nat → List Char → List String × List Char
  | 0, cs => ([], cs)
  | fuel + 1, cs =>
    match cs with
    | '.' :: rest =>
      let p := readIdent rest
      let q := readClasses fuel p.2
      (p.1 :: q.1, q.2)
    | _ => ([], cs)

/-- Reading a quoted attribute value inside `parseTagLine`: consumes until the
closing quote or the end of the line, a backslash escaping the next character
literally.  Returns the value and the remainder (whose head is the closing
quote if one was found). -/
def readQuotedVal (q : Char) : List Char → String × List Char
  | [] => ("", [])
  | c :: rest =>
    if c = q then ("", c :: rest)
    else if c = '\\' then
      match rest with
      | [] => ("", [])
      | e :: rest2 =>
        let p := readQuotedVal q rest2
        (String.singleton e ++ p.1, p.2)
    else
      let p := readQuotedVal q rest
      (String.singleton c ++ p.1, p.2)

/-- Reading an unquoted attribute value: until space, tab or `]`. -/
def readUnquotedVal (cs : List Char) : String × List Char :=
  let p := cs.span (fun c => !(c == ']' || c == ' ' || c == '\t'))
  (String.mk p.1, p.2)

/-- The inner attribute loop of `parseTagLine` (one `[...]` block):
`while (pos < line.length && peek() !== ']') { ... }`.  Note that the
`maxAttributes = 50` constant of the source is declared but never consulted,
so no count check appears here. -/
def readAttrsInBlock : Nat → List Char → List (String × AttrValue) × List Char
  | 0, cs => ([], cs)
  | fuel + 1, cs =>
    match cs with
    | [] => ([], [])
    | c :: _ =>
      if c = ']' then ([], cs)
      else
        let cs1 := skipWs cs
        let p := readIdent cs1
        if p.1 = "" then ([], p.2)
        else
          let cs3 := skipWs p.2
          match cs3 with
          | '=' :: cs4 =>
            let cs5 := skipWs cs4
            let vp : String × List Char :=
              match cs5 with
              | '"' :: csq =>
                let r := readQuotedVal '"' csq
                (r.1, if r.2.headD ' ' == '"' then r.2.tail else r.2)
              | '\'' :: csq =>
                let r := readQuotedVal '\'' csq
                (r.1, if r.2.headD ' ' == '\'' then r.2.tail else r.2)
              | _ => readUnquotedVal cs5
            let q := readAttrsInBlock fuel (skipWs vp.2)
            ((p.1, AttrValue.str vp.1) :: q.1, q.2)
          | _ =>
            let q := readAttrsInBlock fuel (skipWs cs3)
            ((p.1, AttrValue.flag) :: q.1, q.2)

/-- The outer attribute loop of `parseTagLine`:
`while (peek() === '[') { ... }`; a missing closing `]` is skipped over
silently (`if (peek() === ']') advance();` has no else branch). -/
def readAttrBlocks : Nat → List Char → List (String × AttrValue) × List Char
  | 0, cs => ([], cs)
  | fuel + 1, cs =>
    match cs with
    | '[' :: rest =>
      let p := readAttrsInBlock (rest.length + 1) rest
      let r2 := if p.2.headD ' ' == ']' then p.2.tail else p.2
      let q := readAttrBlocks fuel (skipWs r2)
      (p.1 ++ q.1, q.2)
    | _ => ([], cs)

/-- The body of `parseTagLine` after its emptiness guard: name, classes, id,
attribute blocks, then optional `: content`. -/
def parseTagLineCore (line : String) : ParsedTagLine :=
  let cs := line.toList
  let pn := readIdent cs
  let pc := readClasses (pn.2.length + 1) pn.2
  let pid : Option String × List Char :=
    match pc.2 with
    | '#' :: rest =>
      let p := readIdent rest
      (some p.1, p.2)
    | _ => (none, pc.2)
  let pa := readAttrBlocks (pid.2.length + 1) pid.2
  let cs5 := skipWs pa.2
  let content : Option String :=
    match cs5 with
    | ':' :: rest =>
      let r1 := skipWs rest
      match r1 with
      | [] => none
      | '|' :: r2 =>
        let r3 := skipWs r2
        if r3 = [] then some "|"
        else some (stripSymQuotes (jsTrim (String.mk r3)))
      | '"' :: r2 =>
        let p := r2.span (fun c => !(c == '"'))
        some (String.mk p.1)
      | _ => some (jsTrim (String.mk r1))
    | _ => none
  ⟨pn.1, pc.1, pid.1, pa.1, content⟩

/-- `parseTagLine`: the only error it can actually raise is the emptiness
guard `if (!line || line.trim().length === 0) throwError('Empty tag line')`. -/
def parseTagLine (line : String) : Except String ParsedTagLine :=
  if jsTrim line = "" then Except.error "Empty tag line"
  else Except.ok (parseTagLineCore line)

/-- The class-level `TinyHTMLParser.readIdentifier` (lines 88-108 of the
parser), which enforces the 100-character identifier limit.  It is defined in
the source but never invoked on the `parse()` path. -/
def readIdentifierGo (acc : String) : List Char → Except String (String × List Char)
  | [] => Except.ok (acc, [])
  | c :: rest =>
    if isIdentChar c then
      if 100 ≤ acc.length then
        Except.error "Identifier too long: maximum 100 characters allowed"
      else readIdentifierGo (acc.push c) rest
    else Except.ok (acc, c :: rest)

/-- The class-level guarded `readIdentifier`. -/
def readIdentifier (cs : List Char) : Except String (String × List Char) :=
  match readIdentifierGo "" cs with
  | Except.error e => Except.error e
  | Except.ok r =>
    if r.1.length = 0 then Except.error "Expected identifier but found none"
    else Except.ok r

/-- Loop of the class-level `TinyHTMLParser.readString` (lines 110-142),
which raises `Unterminated string: expected closing <quote>`.  Also defined in
the source but never invoked on the `parse()` path. -/
def readStringGo (q : Char) (acc : String) : List Char → Except String (String × List Char)
  | [] => Except.error ("Unterminated string: expected closing " ++ String.singleton q)
  | c :: rest =>
    if c = q then Except.ok (acc, rest)
    else if 10000 ≤ acc.length then
      Except.error "String too long: maximum 10000 characters allowed"
    else if c = '\\' then
      match rest with
      | [] => Except.error "Unexpected end of input in escaped string"
      | e :: rest2 => readStringGo q (acc.push e) rest2
    else readStringGo q (acc.push c) rest

/-- The class-level guarded `readString` (first `advance()` skips the opening
quote). -/
def readString (q : Char) (cs : List Char) : Except String (String × List Char) :=
  match cs with
  | [] => Except.error "Unexpected end of input"
  | _ :: rest => readStringGo q "" rest

/-- Errors of the parser-constructor precondition checks. -/
inductive ParserInputError where
  | invalidInput
  | inputTooLarge
deriving DecidableEq, Repr

/-- JS `String.prototype.length`: the number of UTF-16 code units (code
points above U+FFFF count twice). -/
def jsLength (s : String) : Nat :=
  (s.toList.map (fun c => if 0x10000 ≤ c.toNat then 2 else 1)).sum

/-- The UTF-8 byte length of a string. -/
def utf8Len (s : String) : Nat := (s.toList.map Char.utf8Size).sum

/-- The characters rejected by the constructor:
`input.includes('\x00') || input.includes('￾') || input.includes('￿')`. -/
def forbiddenChar (c : Char) : Bool :=
  c == Char.ofNat 0x0 || c == Char.ofNat 0xFFFE || c == Char.ofNat 0xFFFF

/-- The precondition checks of the `TinyHTMLParser` constructor, in source
order: emptiness, the 10 * 1024 * 1024 size ceiling on `input.length`, then
forbidden characters.  Returns the raised error, or `none` when parsing may
proceed. -/
def validateParserInput (s : String) : Option ParserInputError :=
  if s = "" then some ParserInputError.invalidInput
  else if 10 * 1024 * 1024 < jsLength s then some ParserInputError.inputTooLarge
  else if s.toList.any forbiddenChar then some ParserInputError.invalidInput
  else none

/-- The fixed self-closing tag-name set of `parseChildren`. -/
def selfClosingNames : List String := ["br", "hr", "img", "input", "meta", "link", "source"]

/-- The loop of `parseMultilineText(baseIndent)` at line granularity: an empty
line is consumed and skipped; a non-empty line with indentation `≤ baseIndent`
ends the block unconsumed; any other line is consumed, trimmed, and kept when
not blank.  Returns the kept lines and the unconsumed remainder. -/
def multilineGo (base : Nat) : List String → List String × List String
  | [] => ([], [])
  | l :: rest =>
    if l = "" then multilineGo base rest
    else if indentOf l ≤ base then ([], l :: rest)
    else
      let t := jsTrim l
      let p := multilineGo base rest
      (if t = "" then p.1 else t :: p.1, p.2)

/-- `parseMultilineText(baseIndent)`: the kept lines joined with `'\n'`,
together with the unconsumed remainder of the input lines. -/
def parseMultilineText (base : Nat) (ls : List String) : String × List String :=
  let p := multilineGo base ls
  (joinWith "\n" p.1, p.2)

/-- The inline-content step of the tag case of `parseChildren`: the `|`
sentinel consumes a following deeper-indented multiline block as a single
Text child (checking the next line's indentation first); other truthy inline
content becomes a single quote-stripped Text child; falsy content (absent or
the empty string) contributes nothing.

In the sentinel branch the tag line's own newline is already skipped inside
that branch (parser lines 427-429), so the unconditional newline skip at
lines 453-455 consumes one following EMPTY line when the multiline block was
not entered: the children check that follows then looks past that single
blank line (e.g. `div: |` + blank line + deeper line attaches the deeper
line as a child of `div`).  For non-sentinel content the skip at lines
453-455 consumes the tag line's own newline, which the line representation
already accounts for. -/
def tagInlineChild (parsed : ParsedTagLine) (curIndent : Nat) (rest : List String) :
    List ASTNode × List String :=
  if parsed.content = some "|" then
    match rest with
    | r :: restTail =>
      if curIndent < indentOf r then
        let m := parseMultilineText curIndent rest
        ([ASTNode.text m.1], m.2)
      else if r = "" then ([], restTail)
      else ([], r :: restTail)
    | [] => ([], [])
  else
    match parsed.content with
    | some ctext =>
      if ctext = "" then ([], rest)
      else ([ASTNode.text (stripSymQuotes ctext)], rest)
    | none => ([], rest)

/-- The `nextIndent > currentIndent` test of `parseChildren` on the next
line (an empty next line has indentation 0, and at end of input there is no
deeper line). -/
def childTrigger (curIndent : Nat) (ls : List String) : Bool :=
  match ls with
  | r :: _ => curIndent < indentOf r
  | [] => false

/-- `parseChildren(parentIndent)` at line granularity, with fuel (the callers
pass `number of lines + 1`; every recursive call is on a strictly shorter line
list).  Returns the parsed sibling nodes and the unconsumed remainder. -/
def parseChildrenF : Nat → Int → List String → List ASTNode × List String
  | 0, _, ls => ([], ls)
  | fuel + 1, p, ls =>
    match ls with
    | [] => ([], [])
    | l :: rest =>
      if l = "" then parseChildrenF fuel p rest
      else if (indentOf l : Int) ≤ p then ([], l :: rest)
      else
        let curIndent := indentOf l
        let line := jsTrim l
        if line = "" then parseChildrenF fuel p rest
        else if startsWithStr line "!DOCTYPE " then
          let q := parseChildrenF fuel p rest
          (ASTNode.doctype (jsTrim (jsDrop line 9)) :: q.1, q.2)
        else
          match line.toList with
          | '|' :: ' ' :: restC =>
            let q := parseChildrenF fuel p rest
            (ASTNode.text (stripSymQuotes (jsTrim (String.mk restC))) :: q.1, q.2)
          | ['|'] =>
            let m := parseMultilineText curIndent rest
            let q := parseChildrenF fuel p m.2
            (ASTNode.text m.1 :: q.1, q.2)
          | '|' :: restC =>
            let q := parseChildrenF fuel p rest
            (ASTNode.text (stripSymQuotes (jsTrim (String.mk restC))) :: q.1, q.2)
          | c :: _ =>
            if c.isAlpha then
              let parsed := parseTagLineCore line
              let sc := selfClosingNames.contains parsed.name
              let inl := tagInlineChild parsed curIndent rest
              let tail :=
                if childTrigger curIndent inl.2 then parseChildrenF fuel curIndent inl.2
                else ([], inl.2)
              let q := parseChildrenF fuel p tail.2
              (ASTNode.tag parsed.name parsed.classes parsed.id parsed.attributes
                  (inl.1 ++ tail.1) sc :: q.1, q.2)
            else
              let q := parseChildrenF fuel p rest
              (ASTNode.text line :: q.1, q.2)
          | [] => parseChildrenF fuel p rest

/-- `parse()`: trim the input, split it into lines, and collect the top-level
forest with parent indentation `-1`. -/
def parseTML (input : String) : List ASTNode :=
  let ls := splitLines (jsTrim input)
  (parseChildrenF (ls.length + 1) (-1) ls).1

/-- `String.prototype.replace(/c/g, r)` for a single-character pattern, on
character lists. -/
def replaceAllCharL (c : Char) (r : List Char) : List Char → List Char
  | [] => []
  | x :: xs => (if x = c then r else [x]) ++ replaceAllCharL c r xs

/-- Single-character global replacement on strings. -/
def replaceAllChar (s : String) (c : Char) (r : String) : String :=
  String.mk (replaceAllCharL c r.toList s.toList)

/-- `HTMLGenerator.escapeHtml`: the four chained global replacements
`& → &amp;`, `< → &lt;`, `> → &gt;`, `" → &quot;`, in source order. -/
def escapeHtml (s : String) : String :=
  replaceAllChar (replaceAllChar (replaceAllChar (replaceAllChar s '&' "&amp;") '<' "&lt;") '>' "&gt;") '"' "&quot;"

/-- `HTMLGenerator.escapeAttributeValue`: textually the same four chained
replacements as `escapeHtml`. -/
def escapeAttributeValue (s : String) : String :=
  replaceAllChar (replaceAllChar (replaceAllChar (replaceAllChar s '&' "&amp;") '<' "&lt;") '>' "&gt;") '"' "&quot;"

/-- `indentType` of the generator options. -/
inductive IndentType where
  | spaces
  | tabs
deriving DecidableEq, Repr

/-- The resolved generator options (`prettierOptions` configure only the
external formatter and are abstracted into the formatter oracle). -/
structure GeneratorOptions where
  indentSize : Nat
  indentType : IndentType
  preserveWhitespace : Bool
  minify : Bool
  usePrettier : Bool
deriving DecidableEq, Repr

/-- The constructor defaults of `HTMLGenerator`. -/
def defaultOptions : GeneratorOptions :=
  ⟨2, IndentType.spaces, false, false, true⟩

/-- An options argument as passed by callers: every field optional, an absent
field keeping the previous value under object spread. -/
structure PartialGeneratorOptions where
  indentSize : Option Nat := none
  indentType : Option IndentType := none
  preserveWhitespace : Option Bool := none
  minify : Option Bool := none
  usePrettier : Option Bool := none
deriving DecidableEq, Repr

/-- The object spread `{ ...base, ...u }` on options records. -/
def mergeOptions (base : GeneratorOptions) (u : PartialGeneratorOptions) : GeneratorOptions :=
  ⟨u.indentSize.getD base.indentSize,
   u.indentType.getD base.indentType,
   u.preserveWhitespace.getD base.preserveWhitespace,
   u.minify.getD base.minify,
   u.usePrettier.getD base.usePrettier⟩

/-- `indentString` / `indent()`: empty under `minify`; otherwise tabs or
`indentLevel * (indentSize || 2)` spaces (note `0` is falsy in
`this.options.indentSize || 2`). -/
def indentStr (opts : GeneratorOptions) (lvl : Nat) : String :=
  if opts.minify then ""
  else
    match opts.indentType with
    | IndentType.tabs => String.mk (List.replicate lvl '\t')
    | IndentType.spaces =>
      String.mk (List.replicate (lvl * (if opts.indentSize = 0 then 2 else opts.indentSize)) ' ')

/-- `newLine`: empty under `minify`. -/
def newLineStr (opts : GeneratorOptions) : String := if opts.minify then "" else "\n"

/-- `HTMLGenerator.generateAttributes`: `class="..."` first (if any class),
then `id="..."` (if truthy), then each attribute in order, boolean flags as
the bare name. -/
def generateAttributes (attributes : List (String × AttrValue)) (classes : List String)
    (idv : Option String) : String :=
  let classAttrs := if classes.isEmpty then [] else ["class=\"" ++ joinWith " " classes ++ "\""]
  let idAttrs :=
    match idv with
    | some i => if i = "" then [] else ["id=\"" ++ i ++ "\""]
    | none => []
  let rest := attributes.map (fun a =>
    match a.2 with
    | AttrValue.flag => a.1
    | AttrValue.str v => a.1 ++ "=\"" ++ escapeAttributeValue v ++ "\"")
  let attrs := classAttrs ++ idAttrs ++ rest
  if attrs.isEmpty then "" else " " ++ joinWith " " attrs

/-- The indexed multi-line loop of `generateText`: blank lines are skipped
(contributing neither text nor separator), every kept line is indented except
a first line at indentation level 0, and a newline follows every kept line
whose index is not the last index.  `f` is the text transformation selected by
`shouldEscape` (`escapeHtml` or the identity). -/
def mlTextGo (f : String → String) (ind nl : String) (lvl : Nat) :
    List String → Nat → Nat → String
  | [], _, _ => ""
  | line :: rest, i, n =>
    let t := jsTrim line
    if t = "" then mlTextGo f ind nl lvl rest (i + 1) n
    else
      (if i = 0 ∧ lvl = 0 then f t else ind ++ f t) ++
        (if i < n - 1 then nl else "") ++ mlTextGo f ind nl lvl rest (i + 1) n

/-- `HTMLGenerator.generateText`: escape unless the current parent tag is
`script`/`style` (case-insensitively); trimmed single-line output under
`minify` or for one-line content, the indexed loop for multi-line content. -/
def generateText (opts : GeneratorOptions) (lvl : Nat) (parent : String) (content : String) : String :=
  let lines := splitLines content
  let raw := toLowerStr parent = "script" ∨ toLowerStr parent = "style"
  let f : String → String := if raw then id else escapeHtml
  if opts.minify then f (jsTrim content)
  else if lines.length = 1 then indentStr opts lvl ++ f (jsTrim content)
  else mlTextGo f (indentStr opts lvl) "\n" lvl lines 0 lines.length

/-- `HTMLGenerator.generateNode`/`generateTag`/`generateDoctype`, with fuel
for the nested recursion over children (callers pass at least the tree
height; fuel 0 is never reached on that budget).  The tag cases in order:
self-closing (children never consulted), childless, the single-short-text
inline form (decided on the processed text), and the multi-line block. -/
def generateNodeF : Nat → GeneratorOptions → Nat → String → ASTNode → String
  | 0, _, _, _, _ => ""
  | fuel + 1, opts, lvl, parent, node =>
    match node with
    | ASTNode.doctype d => "<!DOCTYPE " ++ d ++ ">"
    | ASTNode.text c => generateText opts lvl parent c
    | ASTNode.tag name classes idv attributes children selfClosing =>
      let attrStr := generateAttributes attributes classes idv
      if selfClosing then indentStr opts lvl ++ "<" ++ name ++ attrStr ++ " />"
      else if children.isEmpty then
        indentStr opts lvl ++ "<" ++ name ++ attrStr ++ "></" ++ name ++ ">"
      else
        let inlineCandidate : Option String :=
          match children with
          | [ASTNode.text tc] =>
            let raw := toLowerStr name = "script" ∨ toLowerStr name = "style"
            let processed := if raw then jsTrim tc else escapeHtml tc
            if jsLength processed < 80 ∧ processed.toList.contains '\n' = false then some processed
            else none
          | _ => none
        match inlineCandidate with
        | some processed =>
          indentStr opts lvl ++ "<" ++ name ++ attrStr ++ ">" ++ processed ++ "</" ++ name ++ ">"
        | none =>
          let childLvl := if opts.minify then lvl else lvl + 1
          let body := String.join (children.map (fun ch =>
            generateNodeF fuel opts childLvl name ch ++ newLineStr opts))
          indentStr opts lvl ++ "<" ++ name ++ attrStr ++ ">" ++ newLineStr opts ++ body ++
            indentStr opts lvl ++ "</" ++ name ++ ">"

/-- One scanning step of `html.replace(/\n\s*\n\s*\n/g, '\n\n')`: at a
newline whose following maximal whitespace run contains at least two more
newlines, the (greedy, leftmost) match extends to the last newline of the run
and is replaced by two newlines; scanning resumes after the match. -/
def collapseBlank : Nat → List Char → List Char
  | 0, cs => cs
  | _ + 1, [] => []
  | fuel + 1, c :: rest =>
    if c = '\n' then
      let run := rest.takeWhile isWsChar
      if 2 ≤ (run.filter (fun d => d == '\n')).length then
        let k := run.length - (run.reverse.takeWhile (fun d => !(d == '\n'))).length
        '\n' :: '\n' :: collapseBlank fuel (rest.drop k)
      else c :: collapseBlank fuel rest
    else c :: collapseBlank fuel rest

/-- The `^\s*\n` alternative of the second replacement: strip a leading
whitespace run up to and including its last newline. -/
def removeLeadingBlank (cs : List Char) : List Char :=
  let lead := cs.takeWhile isWsChar
  if lead.contains '\n' then
    cs.drop (lead.length - (lead.reverse.takeWhile (fun d => !(d == '\n'))).length)
  else cs

/-- The `\n\s*$` alternative of the second replacement: strip from the first
newline of the trailing whitespace run to the end. -/
def removeTrailingBlank (cs : List Char) : List Char :=
  let trail := cs.reverse.takeWhile isWsChar
  if trail.contains '\n' then
    cs.take (cs.length - trail.length + (trail.reverse.takeWhile (fun d => !(d == '\n'))).length)
  else cs

/-- Models `String.prototype.trimRight`. -/
def jsTrimRight (s : String) : String :=
  String.mk (s.toList.reverse.dropWhile isWsChar).reverse

/-- `HTMLGenerator.formatHTML`, the local fallback normalizer: collapse runs
of blank lines, strip a leading/trailing blank region, and strip trailing
whitespace from every line. -/
def formatHTML (s : String) : String :=
  let s1 := collapseBlank (s.toList.length + 1) s.toList
  let s2 := removeTrailingBlank (removeLeadingBlank s1)
  joinWith "\n" ((splitLines (String.mk s2)).map jsTrimRight)

/-- The per-call mutable state of an `HTMLGenerator` instance that survives a
`generate` call: its stored options and the disposed flag (`indentLevel` and
the output buffer are reset at the start of every call). -/
structure GenState where
  options : GeneratorOptions
  disposed : Bool
deriving DecidableEq, Repr

/-- The `HTMLGenerator` constructor: defaults overridden by the options
argument. -/
def GenState.new (opts : PartialGeneratorOptions) : GenState :=
  ⟨mergeOptions defaultOptions opts, false⟩

/-- `HTMLGenerator.generate(ast, options?)`.  `fmt` is the external
`prettier.format` oracle (`none` models failure or the 5-second timeout, on
which the local `formatHTML` fallback runs); `fuel` bounds the child
recursion depth.  Passed options are spread into the instance's stored
options before rendering; the updated state is returned alongside the
output. -/
def generateF (fuel : Nat) (fmt : String → Option String) (s : GenState)
    (ast : List ASTNode) (optsArg : Option PartialGeneratorOptions) :
    Except String (String × GenState) :=
  if s.disposed then Except.error "Generator has been disposed"
  else
    let o :=
      match optsArg with
      | some u => mergeOptions s.options u
      | none => s.options
    let raw := String.join (ast.map (fun n => generateNodeF fuel o 0 "" n ++ newLineStr o))
    let html :=
      if o.usePrettier ∧ ¬o.minify then
        match fmt raw with
        | some formatted => formatted
        | none => formatHTML raw
      else if ¬o.minify then formatHTML raw
      else raw
    Except.ok (html, ⟨o, s.disposed⟩)

/-- Claim-side escaping: each of the characters `&`, `<`, `>`, `"` replaced
by its entity, every other character kept. -/
def escCharL (c : Char) : List Char :=
  if c = '&' then "&amp;".toList
  else if c = '<' then "&lt;".toList
  else if c = '>' then "&gt;".toList
  else if c = '"' then "&quot;".toList
  else [c]

/-- Claim-side escaping on character lists, applied character by character. -/
def escapeSpecL : List Char → List Char
  | [] => []
  | c :: cs => escCharL c ++ escapeSpecL cs

/-- Claim-side escaping on strings: escapes exactly `&`, `<`, `>`, `"`. -/
def escapeSpec (s : String) : String := String.mk (escapeSpecL s.toList)

/-- Claim-side text rendering with an explicit per-fragment transformation
`f`: the generator's layout with `f` in place of the escape-or-verbatim
choice (`f = id` is "emitted verbatim apart from trimming"). -/
def generateTextWith (f : String → String) (opts : GeneratorOptions) (lvl : Nat)
    (content : String) : String :=
  let lines := splitLines content
  if opts.minify then f (jsTrim content)
  else if lines.length = 1 then indentStr opts lvl ++ f (jsTrim content)
  else mlTextGo f (indentStr opts lvl) "\n" lvl lines 0 lines.length

/-- The lines a multiline block consumes according to the code: empty lines
and lines indented strictly deeper than the base. -/
def mlCont (base : Nat) (l : String) : Bool := l == "" || decide (base < indentOf l)

/-- Keep a consumed line when its trim is non-blank, trimmed. -/
def keepLine (l : String) : Option String :=
  if jsTrim l = "" then none else some (jsTrim l)

/-- The lines child collection at parent indentation `p` consumes according
to the code: empty lines and lines indented strictly deeper than `p`. -/
def childSkip (p : Int) (l : String) : Bool := l == "" || decide (p < (indentOf l : Int))

/-- Modelled from the claim's words for C6: consume exactly the following
lines whose indentation is strictly greater than `k` (trimmed, blanks
dropped, joined by newlines) and stop at the first line whose indentation is
`≤ k`, leaving it unconsumed. -/
def specC6Multiline (k : Nat) (ls : List String) : String × List String :=
  (joinWith "\n" ((ls.takeWhile (fun l => decide (k < indentOf l))).filterMap keepLine),
   ls.dropWhile (fun l => decide (k < indentOf l)))

/-- The invariant asserted by C1 for a single node: a self-closing tag has no
children. -/
def selfClosingNoChildren : ASTNode → Bool
  | ASTNode.tag _ _ _ _ ch sc => !sc || ch.isEmpty
  | _ => true

/-- Soundness of the `selfClosing` flag throughout a tree: on every tag node
the flag is exactly the membership of the name in the fixed self-closing
set (children of any shape are permitted). -/
inductive GoodSC : ASTNode → Prop
  | doctype (d : String) : GoodSC (ASTNode.doctype d)
  | text (c : String) : GoodSC (ASTNode.text c)
  | tag (name : String) (classes : List String) (idv : Option String)
      (attributes : List (String × AttrValue)) (children : List ASTNode) (sc : Bool)
      (hsc : sc = decide (name ∈ selfClosingNames))
      (hch : ∀ c ∈ children, GoodSC c) :
      GoodSC (ASTNode.tag name classes idv attributes children sc)

/-- A tag line whose single attribute block holds 51 bare attribute entries. -/
def attrFloodLine : String := "div[" ++ joinWith " " (List.replicate 51 "a") ++ "]"

/-- A tag line consisting of a 101-character identifier. -/
def longIdentLine : String := String.mk (List.replicate 101 'a')

/-- 6,000,000 two-byte characters: under 10 * 1024 * 1024 UTF-16 code units,
but 12,000,000 UTF-8 bytes. -/
def bigInput : String := String.mk (List.replicate 6000000 'é')

/-- A call-site options argument setting only `minify`. -/
def minifyOn : PartialGeneratorOptions := { minify := some true }

/-- Twenty `<` characters: 20 characters of raw content, but 80 characters
once escaped. -/
def ltStr20 : String := String.mk (List.replicate 20 '<')

theorem replaceAllCharL_append (c : Char) (r u v : List Char) :
    replaceAllCharL c r (u ++ v) = replaceAllCharL c r u ++ replaceAllCharL c r v := by
  induction u with
  | nil => rfl
  | cons x xs ih => simp [replaceAllCharL, ih]

theorem escape_chain_eq (cs : List Char) :
    replaceAllCharL '"' "&quot;".toList (replaceAllCharL '>' "&gt;".toList
      (replaceAllCharL '<' "&lt;".toList (replaceAllCharL '&' "&amp;".toList cs))) =
    escapeSpecL cs := by
  induction cs with
  | nil => rfl
  | cons c cs ih =>
    have h1 : replaceAllCharL '&' "&amp;".toList (c :: cs) =
        (if c = '&' then "&amp;".toList else [c]) ++ replaceAllCharL '&' "&amp;".toList cs := rfl
    rw [h1, replaceAllCharL_append, replaceAllCharL_append, replaceAllCharL_append, ih]
    show _ = escCharL c ++ escapeSpecL cs
    congr 1
    by_cases h2 : c = '&'
    · subst h2; decide
    · by_cases h3 : c = '<'
      · subst h3; decide
      · by_cases h4 : c = '>'
        · subst h4; decide
        · by_cases h5 : c = '"'
          · subst h5; decide
          · simp [h2, h3, h4, h5, replaceAllCharL, escCharL]

theorem escapeHtml_eq_escapeSpec (s : String) : escapeHtml s = escapeSpec s :=
  congrArg String.mk (escape_chain_eq s.toList)

theorem mlTextGo_congr (f g : String → String) (h : ∀ s, f s = g s) (ind nl : String)
    (lvl : Nat) : ∀ (ls : List String) (i n : Nat),
    mlTextGo f ind nl lvl ls i n = mlTextGo g ind nl lvl ls i n := by
  intro ls
  induction ls with
  | nil => intro i n; rfl
  | cons l rest ih =>
    intro i n
    simp only [mlTextGo]
    by_cases ht : jsTrim l = ""
    · simp [ht, ih]
    · simp [ht, ih, h]

/-- C8 (confirmed): for every Text node the generator escapes exactly the
characters `&`, `<`, `>`, `"` of its content unless the immediate parent tag
name is `script` or `style` case-insensitively, in which case the content is
emitted verbatim apart from trimming; in particular `<b>` under `p` renders
`&lt;b&gt;` while the same text under `script` renders literally. -/
theorem c8_text_escaping :
    (∀ (opts : GeneratorOptions) (lvl : Nat) (parent content : String),
      generateText opts lvl parent content =
        if toLowerStr parent = "script" ∨ toLowerStr parent = "style"
        then generateTextWith id opts lvl content
        else generateTextWith escapeSpec opts lvl content) ∧
    generateText defaultOptions 0 "p" "<b>" = "&lt;b&gt;" ∧
    generateText defaultOptions 0 "script" "<b>" = "<b>" := by
  refine ⟨?_, by decide, by decide⟩
  intro opts lvl parent content
  by_cases hraw : toLowerStr parent = "script" ∨ toLowerStr parent = "style"
  · rw [if_pos hraw]
    simp only [generateText, generateTextWith, if_pos hraw]
  · rw [if_neg hraw]
    simp only [generateText, generateTextWith, if_neg hraw]
    by_cases hm : opts.minify
    · simp [hm, escapeHtml_eq_escapeSpec]
    · by_cases hlen : (splitLines content).length = 1
      · simp [hm, hlen, escapeHtml_eq_escapeSpec]
      · simp [hm, hlen,
          mlTextGo_congr escapeHtml escapeSpec escapeHtml_eq_escapeSpec]

/-- C9 (counterexample): a `p` tag with a single text child of 20 `<`
characters — raw content of length 20 < 80 with no newline — is NOT rendered
inline as `<p>{escaped}</p>`: the escaped text has length 80, so the
generator renders a multi-line block, contradicting the claim's condition on
the raw content. -/
theorem c9_counterexample :
    jsLength ltStr20 < 80 ∧
    ltStr20.toList.contains '\n' = false ∧
    generateNodeF 2 defaultOptions 0 ""
        (ASTNode.tag "p" [] none [] [ASTNode.text ltStr20] false) ≠
      "<p>" ++ escapeHtml ltStr20 ++ "</p>" := by
  refine ⟨by decide, by decide, by decide⟩

/-- C9 (amended): the inline decision for a non-self-closing tag with exactly
one Text child is taken on the processed text (escaped unless the tag name is
`script`/`style` case-insensitively, else trimmed): if the processed text has
length below 80 and no newline, the tag renders inline on one line as
`<name attrs>processed</name>`; otherwise it renders as a multi-line block. -/
theorem c9_amended :
    ∀ (fuel : Nat) (opts : GeneratorOptions) (lvl : Nat) (parent name : String)
      (classes : List String) (idv : Option String)
      (attributes : List (String × AttrValue)) (tc : String),
    (jsLength (if toLowerStr name = "script" ∨ toLowerStr name = "style"
        then jsTrim tc else escapeHtml tc) < 80 ∧
      (if toLowerStr name = "script" ∨ toLowerStr name = "style"
        then jsTrim tc else escapeHtml tc).toList.contains '\n' = false →
      generateNodeF (fuel + 1) opts lvl parent
          (ASTNode.tag name classes idv attributes [ASTNode.text tc] false) =
        indentStr opts lvl ++ "<" ++ name ++ generateAttributes attributes classes idv ++ ">" ++
          (if toLowerStr name = "script" ∨ toLowerStr name = "style"
            then jsTrim tc else escapeHtml tc) ++ "</" ++ name ++ ">") ∧
    (¬(jsLength (if toLowerStr name = "script" ∨ toLowerStr name = "style"
        then jsTrim tc else escapeHtml tc) < 80 ∧
      (if toLowerStr name = "script" ∨ toLowerStr name = "style"
        then jsTrim tc else escapeHtml tc).toList.contains '\n' = false) →
      generateNodeF (fuel + 1) opts lvl parent
          (ASTNode.tag name classes idv attributes [ASTNode.text tc] false) =
        indentStr opts lvl ++ "<" ++ name ++ generateAttributes attributes classes idv ++ ">" ++
          newLineStr opts ++
          (generateNodeF fuel opts (if opts.minify then lvl else lvl + 1) name
              (ASTNode.text tc) ++ newLineStr opts) ++
          indentStr opts lvl ++ "</" ++ name ++ ">") := by
  intro fuel opts lvl parent name classes idv attributes tc
  constructor
  · intro h
    simp only [generateNodeF]
    rw [if_pos h]
    simp [String.join]
  · intro h
    simp only [generateNodeF]
    rw [if_neg h]
    simp [String.join]

/-- Witness for C9 at a concrete input: `p` with the short text child `hi`
renders inline. -/
theorem c9_amended_witness :
    (jsLength (if toLowerStr "p" = "script" ∨ toLowerStr "p" = "style"
        then jsTrim "hi" else escapeHtml "hi") < 80 ∧
      (if toLowerStr "p" = "script" ∨ toLowerStr "p" = "style"
        then jsTrim "hi" else escapeHtml "hi").toList.contains '\n' = false) ∧
    generateNodeF 1 defaultOptions 0 "" (ASTNode.tag "p" [] none [] [ASTNode.text "hi"] false) =
      indentStr defaultOptions 0 ++ "<" ++ "p" ++ generateAttributes [] [] none ++ ">" ++
        (if toLowerStr "p" = "script" ∨ toLowerStr "p" = "style"
          then jsTrim "hi" else escapeHtml "hi") ++ "</" ++ "p" ++ ">" :=
  ⟨by decide, (c9_amended 0 defaultOptions 0 "" "p" [] none [] "hi").1 (by decide)⟩

/-- C10 (confirmed): options passed to a `generate` call are spread into the
instance's stored options and persist beyond that call: the post-call state
stores the merged options, and a later `generate` on that state without
explicit options behaves exactly like a call that passes the same options
again (rather than using the constructor-time options). -/
theorem c10_options_persist :
    ∀ (fuel : Nat) (fmt : String → Option String) (s : GenState)
      (ast ast2 : List ASTNode) (p : PartialGeneratorOptions),
    s.disposed = false →
    (generateF fuel fmt s ast (some p)).map Prod.snd =
        Except.ok (⟨mergeOptions s.options p, false⟩ : GenState) ∧
    generateF fuel fmt ⟨mergeOptions s.options p, false⟩ ast2 none =
      generateF fuel fmt s ast2 (some p) := by
  intro fuel fmt s ast ast2 p h
  constructor
  · simp [generateF, h, Except.map]
  · simp [generateF, h]

/-- Witness for C10 at a concrete input: after `generate(ast, {minify: true})`
on a freshly constructed generator, a second `generate` without options
behaves like one that passes `{minify: true}` again, and the stored options
have `minify := true`. -/
theorem c10_options_persist_witness :
    (GenState.new {}).disposed = false ∧
    ((generateF 2 (fun _ => none) (GenState.new {}) [ASTNode.text "x"] (some minifyOn)).map
        Prod.snd =
        Except.ok (⟨mergeOptions (GenState.new {}).options minifyOn, false⟩ : GenState) ∧
      generateF 2 (fun _ => none) ⟨mergeOptions (GenState.new {}).options minifyOn, false⟩
          [ASTNode.text "x"] none =
        generateF 2 (fun _ => none) (GenState.new {}) [ASTNode.text "x"] (some minifyOn)) ∧
    mergeOptions (GenState.new {}).options minifyOn =
      { defaultOptions with minify := true } :=
  ⟨rfl,
   c10_options_persist 2 (fun _ => none) (GenState.new {}) [ASTNode.text "x"]
     [ASTNode.text "x"] minifyOn rfl,
   rfl⟩

theorem multilineGo_eq (base : Nat) (ls : List String) :
    multilineGo base ls =
      ((ls.takeWhile (mlCont base)).filterMap keepLine, ls.dropWhile (mlCont base)) := by
  induction ls with
  | nil => rfl
  | cons l rest ih =>
    by_cases hl : l = ""
    · subst hl
      have hpred : mlCont base "" = true := by simp [mlCont]
      have hkeep : keepLine "" = none := rfl
      simp [multilineGo, ih, hpred, hkeep]
    · by_cases hind : indentOf l ≤ base
      · have hpred : mlCont base l = false := by
          simp [mlCont, hl]
          omega
        simp [multilineGo, hl, hind, hpred]
      · have hpred : mlCont base l = true := by
          simp [mlCont, hl]
          omega
        by_cases ht : jsTrim l = ""
        · have hkeep : keepLine l = none := by simp [keepLine, ht]
          simp [multilineGo, hl, hind, hpred, ih, ht, hkeep]
        · have hkeep : keepLine l = some (jsTrim l) := by simp [keepLine, ht]
          simp [multilineGo, hl, hind, hpred, ih, ht, hkeep]

/-- C6 (amended): a bare `|` line at indentation `k` makes the parser consume
every following line that is empty or indented strictly deeper than `k` —
each consumed line trimmed, blank ones dropped — join the kept lines with
newlines, and stop at the first non-empty line whose indentation is `≤ k`
without consuming it (so a whitespace-only line with indentation `≤ k` also
ends the block, while a completely empty line never does). -/
theorem c6_amended : ∀ (base : Nat) (ls : List String),
    parseMultilineText base ls =
      (joinWith "\n" ((ls.takeWhile (mlCont base)).filterMap keepLine),
       ls.dropWhile (mlCont base)) := by
  intro base ls
  simp [parseMultilineText, multilineGo_eq]

/-- C6 (counterexample): after a bare `|` at indentation 0, the empty line in
`["  a", "", "  b"]` has indentation `0 ≤ 0`, so by the claim the block would
stop there with text `"a"`; the code instead skips the empty line and
produces the single Text node `"a\nb"`, consuming all three lines. -/
theorem c6_counterexample :
    parseMultilineText 0 ["  a", "", "  b"] = ("a\nb", []) ∧
    specC6Multiline 0 ["  a", "", "  b"] = ("a", ["", "  b"]) ∧
    parseMultilineText 0 ["  a", "", "  b"] ≠ specC6Multiline 0 ["  a", "", "  b"] ∧
    parseTML "|\n  a\n\n  b" = [ASTNode.text "a\nb"] := by
  refine ⟨by decide, by decide, by decide, rfl⟩

theorem dropWhile_length_le {α : Type} (f : α → Bool) (ls : List α) :
    (ls.dropWhile f).length ≤ ls.length := by
  induction ls with
  | nil => simp
  | cons x xs ih =>
    rw [List.dropWhile_cons]
    by_cases h : f x = true
    · simp only [h, if_true]
      exact Nat.le_succ_of_le ih
    · simp [h]

theorem dropWhile_dropWhile_of_imp {α : Type} (q r : α → Bool)
    (h : ∀ x, q x = true → r x = true) (ls : List α) :
    (ls.dropWhile q).dropWhile r = ls.dropWhile r := by
  induction ls with
  | nil => rfl
  | cons x xs ih =>
    rw [List.dropWhile_cons, List.dropWhile_cons]
    by_cases hq : q x = true
    · simp only [hq, if_true, h x hq, ih]
    · simp [hq, List.dropWhile_cons]

theorem tagInlineChild_snd (parsed : ParsedTagLine) (c : Nat) (rest : List String) :
    (tagInlineChild parsed c rest).2 = rest ∨
    (tagInlineChild parsed c rest).2 = rest.dropWhile (mlCont c) ∨
    rest = "" :: (tagInlineChild parsed c rest).2 := by
  unfold tagInlineChild
  split
  · split
    · split
      · right
        left
        simp [parseMultilineText, multilineGo_eq]
      · split
        · right
          right
          simp [*]
        · left
          rfl
    · left
      rfl
  · split
    · split
      · left
        rfl
      · left
        rfl
    · left
      rfl

theorem tagInlineChild_snd_length (parsed : ParsedTagLine) (c : Nat) (rest : List String) :
    (tagInlineChild parsed c rest).2.length ≤ rest.length := by
  rcases tagInlineChild_snd parsed c rest with h | h | h
  · rw [h]
  · rw [h]
    exact dropWhile_length_le _ _
  · have h2 := congrArg List.length h
    simp at h2
    omega

theorem tagInlineChild_fst (parsed : ParsedTagLine) (c : Nat) (rest : List String) :
    ∀ n ∈ (tagInlineChild parsed c rest).1, ∃ s, n = ASTNode.text s := by
  unfold tagInlineChild
  split
  · split
    · split
      · intro n hn
        simp at hn
        exact ⟨_, hn⟩
      · split
        · intro n hn
          simp at hn
        · intro n hn
          simp at hn
    · intro n hn
      simp at hn
  · split
    · split
      · intro n hn
        simp at hn
      · intro n hn
        simp at hn
        exact ⟨_, hn⟩
    · intro n hn
      simp at hn

theorem mlCont_imp_childSkip (c : Nat) (p : Int) (hpc : p < (c : Int)) :
    ∀ x, mlCont c x = true → childSkip p x = true := by
  intro x hx
  simp only [mlCont, Bool.or_eq_true, beq_iff_eq, decide_eq_true_eq] at hx
  simp only [childSkip, Bool.or_eq_true, beq_iff_eq, decide_eq_true_eq]
  rcases hx with h | h
  · exact Or.inl h
  · right
    omega

theorem childSkip_imp_childSkip (c p : Int) (hpc : p < c) :
    ∀ x, childSkip c x = true → childSkip p x = true := by
  intro x hx
  simp only [childSkip, Bool.or_eq_true, beq_iff_eq, decide_eq_true_eq] at hx ⊢
  rcases hx with h | h
  · exact Or.inl h
  · right
    omega

theorem c7_tag_step (fuel : Nat)
    (ih : ∀ (p : Int) (ls : List String), ls.length < fuel →
      (parseChildrenF fuel p ls).2 = ls.dropWhile (childSkip p))
    (p : Int) (curIndent : Nat) (hpc : p < (curIndent : Int))
    (parsed : ParsedTagLine) (rest : List String) (hlen : rest.length < fuel) :
    (parseChildrenF fuel p
        (if childTrigger curIndent (tagInlineChild parsed curIndent rest).2 = true then
            parseChildrenF fuel curIndent (tagInlineChild parsed curIndent rest).2
          else ([], (tagInlineChild parsed curIndent rest).2)).2).2 =
      rest.dropWhile (childSkip p) := by
  have hinl_len : (tagInlineChild parsed curIndent rest).2.length ≤ rest.length :=
    tagInlineChild_snd_length parsed curIndent rest
  have hdropInl :
      (tagInlineChild parsed curIndent rest).2.dropWhile (childSkip p) =
        rest.dropWhile (childSkip p) := by
    rcases tagInlineChild_snd parsed curIndent rest with h | h | h
    · rw [h]
    · rw [h]
      exact dropWhile_dropWhile_of_imp _ _ (mlCont_imp_childSkip curIndent p hpc) rest
    · generalize hX : (tagInlineChild parsed curIndent rest).2 = X at h ⊢
      rw [h, List.dropWhile_cons, if_pos (show childSkip p "" = true by simp [childSkip])]
  by_cases htr : childTrigger curIndent (tagInlineChild parsed curIndent rest).2 = true
  · rw [if_pos htr]
    have htail : (parseChildrenF fuel curIndent (tagInlineChild parsed curIndent rest).2).2 =
        (tagInlineChild parsed curIndent rest).2.dropWhile (childSkip curIndent) :=
      ih curIndent _ (Nat.lt_of_le_of_lt hinl_len hlen)
    rw [htail]
    have hlen2 :
        ((tagInlineChild parsed curIndent rest).2.dropWhile (childSkip curIndent)).length < fuel :=
      Nat.lt_of_le_of_lt
        (Nat.le_trans (dropWhile_length_le _ _) hinl_len) hlen
    rw [ih p _ hlen2]
    rw [dropWhile_dropWhile_of_imp _ _ (childSkip_imp_childSkip curIndent p hpc) _]
    exact hdropInl
  · rw [if_neg htr]
    rw [ih p _ (Nat.lt_of_le_of_lt hinl_len hlen)]
    exact hdropInl

/-- C7 (amended): child collection at parent indentation `p` consumes exactly
the maximal prefix of following lines that are empty or indented strictly
deeper than `p` (parsing the non-blank ones, dropping blank ones), and stops
— without consuming — at the first non-empty line whose indentation is `≤ p`
(a whitespace-only line with indentation `≤ p` also stops collection; in
particular a tag at indentation 2 followed by a non-blank line at indentation
2 never becomes a child of that tag). -/
theorem c7_amended : ∀ (fuel : Nat) (p : Int) (ls : List String),
    ls.length < fuel →
    (parseChildrenF fuel p ls).2 = ls.dropWhile (childSkip p) := by
  intro fuel
  induction fuel with
  | zero =>
    intro p ls h
    exact absurd h (Nat.not_lt_zero _)
  | succ fuel ih =>
    intro p ls h
    match ls with
    | [] => simp [parseChildrenF]
    | l :: rest =>
      have hrest : rest.length < fuel := Nat.lt_of_succ_lt_succ h
      by_cases hl : l = ""
      · have hpred : childSkip p l = true := by simp [childSkip, hl]
        rw [List.dropWhile_cons, if_pos hpred, ← ih p rest hrest]
        simp [parseChildrenF, hl]
      · by_cases hind : (indentOf l : Int) ≤ p
        · have hpred : ¬(childSkip p l = true) := by
            simp [childSkip, hl]
            omega
          rw [List.dropWhile_cons, if_neg hpred]
          simp [parseChildrenF, hl, hind]
        · have hpred : childSkip p l = true := by
            simp [childSkip, hl]
            omega
          rw [List.dropWhile_cons, if_pos hpred]
          simp only [parseChildrenF]
          rw [if_neg hl, if_neg hind]
          split
          · exact ih p rest hrest
          · split
            · exact ih p rest hrest
            · split
              · exact ih p rest hrest
              · show (ASTNode.text (parseMultilineText (indentOf l) rest).1 ::
                    (parseChildrenF fuel p (parseMultilineText (indentOf l) rest).2).1,
                    (parseChildrenF fuel p (parseMultilineText (indentOf l) rest).2).2).2 = _
                rw [show (parseMultilineText (indentOf l) rest).2 =
                    rest.dropWhile (mlCont (indentOf l)) by
                  simp [parseMultilineText, multilineGo_eq]]
                rw [ih p _ (Nat.lt_of_le_of_lt (dropWhile_length_le _ _) hrest)]
                exact dropWhile_dropWhile_of_imp _ _
                  (mlCont_imp_childSkip (indentOf l) p (by omega)) rest
              · exact ih p rest hrest
              · split
                · exact c7_tag_step fuel ih p (indentOf l) (by omega)
                    (parseTagLineCore (jsTrim l)) rest hrest
                · exact ih p rest hrest
              · exact ih p rest hrest

/-- Witness for C7 at a concrete input, plus the dedent example (a tag at
indentation 2 followed by a sibling at indentation 2 is a sibling, not a
child) and the `|`-sentinel blank-line case of `parseChildren` (lines
427-455 of the parser): after `div: |` with no deeper block, one following
blank line is consumed before the children check, so `div: |` + blank +
`  deep` makes `deep` a child of `div`. -/
theorem c7_amended_witness :
    (["  a", "", "  b"] : List String).length < 4 ∧
    (parseChildrenF 4 0 ["  a", "", "  b"]).2 =
      (["  a", "", "  b"] : List String).dropWhile (childSkip 0) ∧
    parseTML "div\n  p: x\n  q: y" =
      [ASTNode.tag "div" [] none []
        [ASTNode.tag "p" [] none [] [ASTNode.text "x"] false,
         ASTNode.tag "q" [] none [] [ASTNode.text "y"] false] false] ∧
    parseTML "div: |\n\n  deep" =
      [ASTNode.tag "div" [] none []
        [ASTNode.tag "deep" [] none [] [] false] false] ∧
    parseTML "div: |\n\n\n  deep" =
      [ASTNode.tag "div" [] none [] [] false,
       ASTNode.tag "deep" [] none [] [] false] :=
  ⟨by decide, c7_amended 4 0 ["  a", "", "  b"] (by decide), rfl, rfl, rfl⟩

/-- C7 (counterexample): at parent indentation 0, the claim's stopping rule
— stop at the first line whose indentation is `≤ 0` — would leave
`["", "  b"]` unconsumed on the input `["  a", "", "  b"]`; the code consumes
the empty line and the deeper line after it, leaving nothing. -/
theorem c7_counterexample :
    (parseChildrenF 4 0 ["  a", "", "  b"]).2 = [] ∧
    (["  a", "", "  b"] : List String).dropWhile
        (fun l => decide ((0 : Int) < (indentOf l : Int))) = ["", "  b"] ∧
    (parseChildrenF 4 0 ["  a", "", "  b"]).2 ≠
      (["  a", "", "  b"] : List String).dropWhile
        (fun l => decide ((0 : Int) < (indentOf l : Int))) := by
  refine ⟨rfl, by decide, by decide⟩

/-- C1 (counterexample): `input: hi` parses to a Tag node with
`selfClosing = true` AND a non-empty children sequence — the parser attaches
the inline-content Text child even to self-closing names, refuting the
claim that such nodes never carry children. -/
theorem c1_counterexample :
    parseTML "input: hi" =
      [ASTNode.tag "input" [] none [] [ASTNode.text "hi"] true] ∧
    ¬(∀ n, n ∈ parseTML "input: hi" → selfClosingNoChildren n = true) := by
  constructor
  · rfl
  · intro hall
    have hm : ASTNode.tag "input" [] none [] [ASTNode.text "hi"] true ∈ parseTML "input: hi" := by
      rw [show parseTML "input: hi" =
        [ASTNode.tag "input" [] none [] [ASTNode.text "hi"] true] from rfl]
      exact List.mem_singleton.mpr rfl
    have hfalse := hall _ hm
    exact absurd hfalse (by decide)

/-- C1 (amended): on every Tag node anywhere in a parse result the
`selfClosing` flag equals membership of the tag name in the fixed set
`br, hr, img, input, meta, link, source`; the parser MAY attach inline-content
and indented children to such nodes, but the generator renders a self-closing
tag as `<name attrs />` without ever consulting its children. -/
theorem c1_amended :
    (∀ (fuel : Nat) (p : Int) (ls : List String) (n : ASTNode),
      n ∈ (parseChildrenF fuel p ls).1 → GoodSC n) ∧
    (∀ (fuel : Nat) (opts : GeneratorOptions) (lvl : Nat) (parent name : String)
      (classes : List String) (idv : Option String)
      (attributes : List (String × AttrValue)) (children : List ASTNode),
      generateNodeF (fuel + 1) opts lvl parent
          (ASTNode.tag name classes idv attributes children true) =
        indentStr opts lvl ++ "<" ++ name ++ generateAttributes attributes classes idv ++ " />") := by
  constructor
  · intro fuel
    induction fuel with
    | zero =>
      intro p ls n hn
      simp [parseChildrenF] at hn
    | succ fuel ih =>
      intro p ls n hn
      match ls with
      | [] => simp [parseChildrenF] at hn
      | l :: rest =>
        simp only [parseChildrenF] at hn
        split at hn
        · exact ih p rest n hn
        · split at hn
          · simp at hn
          · split at hn
            · exact ih p rest n hn
            · split at hn
              · simp at hn
                rcases hn with hn | hn
                · subst hn
                  exact GoodSC.doctype _
                · exact ih p rest n hn
              · split at hn
                · simp at hn
                  rcases hn with hn | hn
                  · subst hn
                    exact GoodSC.text _
                  · exact ih p rest n hn
                · simp at hn
                  rcases hn with hn | hn
                  · subst hn
                    exact GoodSC.text _
                  · exact ih p _ n hn
                · simp at hn
                  rcases hn with hn | hn
                  · subst hn
                    exact GoodSC.text _
                  · exact ih p rest n hn
                · split at hn
                  · simp at hn
                    rcases hn with hn | hn
                    · subst hn
                      refine GoodSC.tag _ _ _ _ _ _ rfl ?_
                      intro c hc
                      rcases List.mem_append.mp hc with hc | hc
                      · obtain ⟨s, hs⟩ := tagInlineChild_fst _ _ _ c hc
                        subst hs
                        exact GoodSC.text _
                      · by_cases htr : childTrigger (indentOf l)
                            (tagInlineChild (parseTagLineCore (jsTrim l)) (indentOf l) rest).2 = true
                        · rw [if_pos htr] at hc
                          exact ih _ _ c hc
                        · rw [if_neg htr] at hc
                          simp at hc
                    · exact ih p _ n hn
                  · simp at hn
                    rcases hn with hn | hn
                    · subst hn
                      exact GoodSC.text _
                    · exact ih p rest n hn
                · exact ih p rest n hn
  · intro fuel opts lvl parent name classes idv attributes children
    simp [generateNodeF]

/-- Witness for C1 at concrete inputs: the tag parsed from `input: hi` has a
sound `selfClosing` flag, and so does the tag produced through the
`|`-sentinel blank-line path (`div: |` + blank + `  deep`, where `deep`
becomes a child of `div`). -/
theorem c1_amended_witness :
    (ASTNode.tag "input" [] none [] [ASTNode.text "hi"] true ∈
      (parseChildrenF 2 (-1) ["input: hi"]).1 ∧
    GoodSC (ASTNode.tag "input" [] none [] [ASTNode.text "hi"] true)) ∧
    (ASTNode.tag "div" [] none [] [ASTNode.tag "deep" [] none [] [] false] false ∈
      (parseChildrenF 4 (-1) ["div: |", "", "  deep"]).1 ∧
    GoodSC (ASTNode.tag "div" [] none []
      [ASTNode.tag "deep" [] none [] [] false] false)) := by
  have hm : ASTNode.tag "input" [] none [] [ASTNode.text "hi"] true ∈
      (parseChildrenF 2 (-1) ["input: hi"]).1 := by
    rw [show (parseChildrenF 2 (-1) ["input: hi"]).1 =
      [ASTNode.tag "input" [] none [] [ASTNode.text "hi"] true] from rfl]
    exact List.mem_singleton.mpr rfl
  have hm2 : ASTNode.tag "div" [] none [] [ASTNode.tag "deep" [] none [] [] false] false ∈
      (parseChildrenF 4 (-1) ["div: |", "", "  deep"]).1 := by
    rw [show (parseChildrenF 4 (-1) ["div: |", "", "  deep"]).1 =
      [ASTNode.tag "div" [] none [] [ASTNode.tag "deep" [] none [] [] false] false] from rfl]
    exact List.mem_singleton.mpr rfl
  exact ⟨⟨hm, c1_amended.1 2 (-1) ["input: hi"] _ hm⟩,
    ⟨hm2, c1_amended.1 4 (-1) ["div: |", "", "  deep"] _ hm2⟩⟩

/-- C2 (code_bug): a tag line whose attribute block holds 51 attribute
entries parses WITHOUT any error — the `maxAttributes = 50` limit declared in
`parseTagLine` is never consulted — contradicting the documented 50-entry
ceiling. -/
theorem c2_attr_limit_unenforced :
    parseTagLine attrFloodLine = Except.ok (parseTagLineCore attrFloodLine) ∧
    (parseTagLineCore attrFloodLine).attributes = List.replicate 51 ("a", AttrValue.flag) ∧
    (parseTagLineCore attrFloodLine).attributes.length = 51 := by
  refine ⟨?_, by decide, by decide⟩
  simp only [parseTagLine]
  rw [if_neg (by decide)]

/-- C3 (code_bug): a tag line consisting of a 101-character identifier parses
WITHOUT any error, because `parseTagLine` uses its own local `readIdentifier`
lacking the length check; the class-level `readIdentifier` (which the parse
path never calls) would have raised the documented length error on the same
input. -/
theorem c3_identifier_limit_unenforced :
    parseTagLine longIdentLine = Except.ok (parseTagLineCore longIdentLine) ∧
    (parseTagLineCore longIdentLine).name = longIdentLine ∧
    longIdentLine.length = 101 ∧
    readIdentifier longIdentLine.toList =
      Except.error "Identifier too long: maximum 100 characters allowed" := by
  refine ⟨?_, by decide, by decide, rfl⟩
  simp only [parseTagLine]
  rw [if_neg (by decide)]

/-- C4 (code_bug): a tag line with an unterminated quoted attribute value
(`div[a="x]`) or with an attribute block missing its closing `]`
(`div[a=x`) parses WITHOUT any error — the unterminated quote silently
swallows the rest of the line and the missing bracket is skipped — while the
class-level `readString` (which the parse path never calls) raises the
documented `Unterminated string: expected closing` error. -/
theorem c4_unterminated_accepted :
    parseTagLine "div[a=\"x]" = Except.ok (parseTagLineCore "div[a=\"x]") ∧
    (parseTagLineCore "div[a=\"x]").attributes = [("a", AttrValue.str "x]")] ∧
    parseTagLine "div[a=x" = Except.ok (parseTagLineCore "div[a=x") ∧
    (parseTagLineCore "div[a=x").attributes = [("a", AttrValue.str "x")] ∧
    readString '"' "\"x]".toList =
      Except.error "Unterminated string: expected closing \"" := by
  refine ⟨?_, by decide, ?_, by decide, rfl⟩
  · simp only [parseTagLine]
    rw [if_neg (by decide)]
  · simp only [parseTagLine]
    rw [if_neg (by decide)]

/-- C5 (counterexample): `bigInput` has UTF-8 byte length 12,000,000, well
over the 10 MiB ceiling the claim states, yet the constructor raises no
error at all: the code compares `input.length` (UTF-16 code units, here
6,000,000) against `10 * 1024 * 1024`, not the byte length. -/
theorem c5_counterexample :
    10 * 1024 * 1024 < utf8Len bigInput ∧ validateParserInput bigInput = none := by
  have htl : bigInput.toList = List.replicate 6000000 'é' := rfl
  have hjs : jsLength bigInput = 6000000 := by
    unfold jsLength
    rw [htl, List.map_replicate, show (if 0x10000 ≤ ('é').toNat then 2 else 1) = 1 by decide,
      List.sum_replicate]
    simp
  have hutf : utf8Len bigInput = 12000000 := by
    unfold utf8Len
    rw [htl, List.map_replicate, show Char.utf8Size 'é' = 2 by decide, List.sum_replicate]
    simp
  have hne : bigInput ≠ "" := by
    intro h
    have h2 : bigInput.toList.length = ("" : String).toList.length := by rw [h]
    rw [htl, List.length_replicate] at h2
    exact absurd h2 (by norm_num)
  have hforb : bigInput.toList.any forbiddenChar = false := by
    rw [htl]
    have hall : ∀ n, (List.replicate n 'é').any forbiddenChar = false := by
      intro n
      induction n with
      | zero => rfl
      | succ n ih => simp [List.replicate_succ, ih, forbiddenChar]
    exact hall 6000000
  constructor
  · rw [hutf]
    norm_num
  · unfold validateParserInput
    rw [if_neg hne, if_neg (by rw [hjs]; norm_num), if_neg (by rw [hforb]; simp)]

/-- C5 (amended): the constructor rejects, in order: empty input with
`InvalidInput`; input of more than `10 * 1024 * 1024` UTF-16 code units
(the code compares `input.length`, not the UTF-8 byte length) with
`InputTooLarge`; input containing a null byte or U+FFFE/U+FFFF with
`InvalidInput`; every input passing all three checks raises no precondition
error. -/
theorem c5_amended : ∀ s : String,
    (validateParserInput s = none ↔
      s ≠ "" ∧ jsLength s ≤ 10 * 1024 * 1024 ∧ s.toList.any forbiddenChar = false) ∧
    (validateParserInput s = some ParserInputError.inputTooLarge ↔
      s ≠ "" ∧ 10 * 1024 * 1024 < jsLength s) ∧
    (validateParserInput s = some ParserInputError.invalidInput ↔
      s = "" ∨ (jsLength s ≤ 10 * 1024 * 1024 ∧ s.toList.any forbiddenChar = true)) := by
  intro s
  by_cases h1 : s = ""
  · rw [show validateParserInput s = some ParserInputError.invalidInput from by
      unfold validateParserInput
      rw [if_pos h1]]
    refine ⟨⟨(fun h => by cases h), fun h => absurd h1 h.1⟩,
      ⟨(fun h => by cases h), fun h => absurd h1 h.1⟩,
      ⟨fun _ => Or.inl h1, fun _ => rfl⟩⟩
  · by_cases h2 : 10 * 1024 * 1024 < jsLength s
    · rw [show validateParserInput s = some ParserInputError.inputTooLarge from by
        unfold validateParserInput
        rw [if_neg h1, if_pos h2]]
      refine ⟨⟨(fun h => by cases h), (fun h => by omega)⟩,
        ⟨fun _ => ⟨h1, h2⟩, fun _ => rfl⟩,
        ⟨(fun h => by cases h), ?_⟩⟩
      intro h
      rcases h with h | ⟨hle, _⟩
      · exact absurd h h1
      · omega
    · by_cases h3 : s.toList.any forbiddenChar = true
      · rw [show validateParserInput s = some ParserInputError.invalidInput from by
          unfold validateParserInput
          rw [if_neg h1, if_neg h2, if_pos h3]]
        refine ⟨⟨(fun h => by cases h), ?_⟩,
          ⟨(fun h => by cases h), fun h => absurd h.2 h2⟩,
          ⟨(fun _ => Or.inr ⟨by omega, h3⟩), (fun _ => rfl)⟩⟩
        intro h
        rw [h3] at h
        cases h.2.2
      · have h3f : s.toList.any forbiddenChar = false := by
          cases hx : s.toList.any forbiddenChar
          · rfl
          · exact absurd hx h3
        rw [show validateParserInput s = none from by
          unfold validateParserInput
          rw [if_neg h1, if_neg h2, if_neg h3]]
        refine ⟨⟨(fun _ => ⟨h1, by omega, h3f⟩), (fun _ => rfl)⟩,
          ⟨(fun h => by cases h), fun h => absurd h.2 h2⟩,
          ⟨(fun h => by cases h), ?_⟩⟩
        intro h
        rcases h with h | ⟨_, htrue⟩
        · exact absurd h h1
        · rw [h3f] at htrue
          cases htrue
